import Mathlib

/-!
Verification of the zane-ops frontend change-staging behaviour.

The definitions below are a shallow embedding of the client-side merge and
request-building code of the service dashboard:

* `envVariablesMap` embeds the merge loop of `ServiceEnvVariablesPage`
  (committed `env_variables` inserted into a JS `Map` first, then every
  unapplied change with `field === "env_variables"` overwriting by
  `item_id ?? id`);
* `createEnvVariableBody` / `updateEnvVariableBody` / `deleteEnvVariableBody`
  embed the request bodies built by `createEnvVariable`, `updateEnvVariable`
  and `deleteEnvVariable`;
* `createEnvVariable` / `updateEnvVariable` / `cancelEnvVariable` embed the
  success/error control flow of those client actions (what is returned and
  whether the cached service query is invalidated);
* `deployServiceForm` embeds `DeployServiceForm`;
* `resolveServiceImage` embeds the image display logic of
  `ServiceDetailsLayout`.

A JS `Map` is modelled as an association list in insertion order: `mapSet`
overwrites in place when the key is present and appends otherwise, which is
exactly the observable behaviour of `Map.prototype.set`.
-/

/-- Payload of one environment variable, the `{key, value}` shape. -/
structure KeyValue where
  key : String
  value : String
  deriving DecidableEq

/-- The `type` discriminator of an unapplied change. -/
inductive ChangeType where
  | ADD
  | UPDATE
  | DELETE
  deriving DecidableEq

/-- One committed environment variable of the service. -/
structure EnvVariable where
  id : String
  key : String
  value : String
  deriving DecidableEq

/-- One element of `service.unapplied_changes` as read by the env page:
`id` is the change id, `item_id` the targeted collection item (when any),
`new_value`/`old_value` the `{key, value}` payloads. -/
structure UnappliedChange where
  id : String
  field : String
  type : ChangeType
  item_id : Option String
  new_value : Option KeyValue
  old_value : Option KeyValue
  deriving DecidableEq

/-- The `EnvVariableUI` record built by the env page. -/
structure EnvVariableUI where
  change_id : Option String
  id : Option String
  name : String
  value : String
  change_type : Option ChangeType
  deriving DecidableEq

/-- JS `Map.prototype.set`: overwrite in place when the key exists,
append at the end otherwise. -/
def mapSet : List (String × EnvVariableUI) → String → EnvVariableUI →
    List (String × EnvVariableUI)
  | [], k, v => [(k, v)]
  | p :: rest, k, v =>
      if p.1 == k then (k, v) :: rest else p :: mapSet rest k v

/-- JS `Map.prototype.get`. -/
def mapGet : List (String × EnvVariableUI) → String → Option EnvVariableUI
  | [], _ => none
  | p :: rest, k => if p.1 == k then some p.2 else mapGet rest k

/-- Keys of the map in insertion order. -/
def mapKeys (m : List (String × EnvVariableUI)) : List String :=
  m.map (fun p => p.1)

/-- Number of entries of the map stored under key `k`. -/
def countKey (m : List (String × EnvVariableUI)) (k : String) : Nat :=
  (m.filter (fun p => p.1 == k)).length

/-- The payload the page reads from a change: `ch.new_value ?? ch.old_value`. -/
def chPayload (ch : UnappliedChange) : Option KeyValue :=
  match ch.new_value with
  | some v => some v
  | none => ch.old_value

/-- The map key used for a change: `ch.item_id ?? ch.id`. -/
def chKey (ch : UnappliedChange) : String :=
  ch.item_id.getD ch.id

/-- The `EnvVariableUI` entry the page stores for a change.  The source casts
`ch.new_value ?? ch.old_value` unchecked to `{key, value}`; the `getD`
default mirrors that the cast assumes a payload is present. -/
def changeEntry (ch : UnappliedChange) : EnvVariableUI :=
  let kv := (chPayload ch).getD ⟨"", ""⟩
  ⟨some ch.id, ch.item_id, kv.key, kv.value, some ch.type⟩

/-- The `EnvVariableUI` entry the page stores for a committed variable. -/
def committedEntry (env : EnvVariable) : EnvVariableUI :=
  ⟨none, some env.id, env.key, env.value, none⟩

/-- The filter `ch.field === "env_variables"` applied to the change list. -/
def isEnvChange (ch : UnappliedChange) : Bool :=
  ch.field == "env_variables"

/-- The merged `env_variables` map of `ServiceEnvVariablesPage`: committed
variables first, then every env change overwriting by `item_id ?? id`. -/
def envVariablesMap (committed : List EnvVariable)
    (changes : List UnappliedChange) : List (String × EnvVariableUI) :=
  let m0 := committed.foldl (fun m env => mapSet m env.id (committedEntry env)) []
  (changes.filter isEnvChange).foldl
    (fun m ch => mapSet m (chKey ch) (changeEntry ch)) m0

/-- The last change of the queue targeting key `i` of the env collection. -/
def lastEnvChange (q : List UnappliedChange) (i : String) :
    Option UnappliedChange :=
  ((q.filter isEnvChange).filter (fun ch => chKey ch == i)).getLast?

/-! ### Basic lemmas about the JS-Map model -/

lemma mapGet_mapSet_self (m : List (String × EnvVariableUI)) (k : String)
    (v : EnvVariableUI) : mapGet (mapSet m k v) k = some v := by
  induction m with
  | nil => simp [mapSet, mapGet]
  | cons p rest ih =>
      cases hpk : p.1 == k with
      | true => simp [mapSet, hpk, mapGet]
      | false => simp [mapSet, hpk, mapGet, ih]

lemma mapGet_mapSet_ne (m : List (String × EnvVariableUI)) (k k' : String)
    (v : EnvVariableUI) (h : k' ≠ k) :
    mapGet (mapSet m k v) k' = mapGet m k' := by
  induction m with
  | nil => simp [mapSet, mapGet, Ne.symm h]
  | cons p rest ih =>
      cases hpk : p.1 == k with
      | true =>
          have hp : p.1 = k := by simpa using hpk
          simp [mapSet, hpk, mapGet, Ne.symm h, hp]
      | false => simp [mapSet, hpk, mapGet, ih]

lemma mapKeys_mapSet_of_not_mem (m : List (String × EnvVariableUI))
    (k : String) (v : EnvVariableUI) (h : k ∉ mapKeys m) :
    mapSet m k v = m ++ [(k, v)] := by
  induction m with
  | nil => simp [mapSet]
  | cons p rest ih =>
      have hp : ¬(p.1 = k) := by
        intro he
        exact h (by simp [mapKeys, he])
      have hrest : k ∉ mapKeys rest := by
        intro hm
        exact h (by simp [mapKeys] at hm ⊢; exact Or.inr hm)
      simp [mapSet, hp, ih hrest]

lemma mapSet_append_self (m : List (String × EnvVariableUI)) (k : String)
    (v w : EnvVariableUI) (h : k ∉ mapKeys m) :
    mapSet (m ++ [(k, v)]) k w = m ++ [(k, w)] := by
  induction m with
  | nil => simp [mapSet]
  | cons p rest ih =>
      have hp : ¬(p.1 = k) := by
        intro he
        exact h (by simp [mapKeys, he])
      have hrest : k ∉ mapKeys rest := by
        intro hm
        exact h (by simp [mapKeys] at hm ⊢; exact Or.inr hm)
      simp [mapSet, hp, ih hrest]

lemma mapKeys_mapSet_mem (m : List (String × EnvVariableUI)) (k : String)
    (v : EnvVariableUI) :
    k ∈ mapKeys m → mapKeys (mapSet m k v) = mapKeys m := by
  induction m with
  | nil => intro h; simp [mapKeys] at h
  | cons p rest ih =>
      intro h
      cases hpk : p.1 == k with
      | true =>
          have hp : p.1 = k := by simpa using hpk
          simp [mapSet, hpk, mapKeys, hp]
      | false =>
          have hp : ¬(p.1 = k) := by simpa using hpk
          have hk : k ∈ mapKeys rest := by
            rcases (by simpa [mapKeys] using h : k = p.1 ∨
                ∃ x, (k, x) ∈ rest) with he | hm
            · exact absurd he.symm hp
            · rcases hm with ⟨x, hx⟩
              simp [mapKeys]
              exact ⟨x, hx⟩
          have h2 := ih hk
          simp only [mapKeys] at h2
          simp [mapSet, hpk, mapKeys, h2]

/-- Folding `mapSet` over a list: the value found under `k` comes from the
last element keyed `k`, and from the initial map when no element is. -/
lemma mapGet_foldl_mapSet {α : Type} (f : α → String) (g : α → EnvVariableUI)
    (l : List α) (m : List (String × EnvVariableUI)) (k : String) :
    mapGet (l.foldl (fun m x => mapSet m (f x) (g x)) m) k =
      ((l.filter (fun x => f x == k)).getLast?).elim (mapGet m k)
        (fun x => some (g x)) := by
  induction l generalizing m with
  | nil => simp
  | cons x rest ih =>
      rw [List.foldl_cons, ih]
      cases hx : f x == k with
      | true =>
          have hfx : f x = k := by simpa using hx
          rw [List.filter_cons_of_pos (by simpa using hx)]
          cases hr : rest.filter (fun y => f y == k) with
          | nil =>
              simp only [List.getLast?_singleton, List.getLast?_nil, Option.elim]
              rw [hfx, mapGet_mapSet_self]
          | cons a l' =>
              have hsome : ∃ b, (a :: l').getLast? = some b := by
                cases hgl : (a :: l').getLast? with
                | none => simp at hgl
                | some b => exact ⟨b, rfl⟩
              rcases hsome with ⟨b, hb⟩
              rw [List.getLast?_cons_cons, hb]
              simp [Option.elim]
      | false =>
          have hfx : k ≠ f x := by
            intro he
            simp [he] at hx
          rw [List.filter_cons_of_neg (by simpa using hx),
            mapGet_mapSet_ne _ _ _ _ hfx]

/-- Every key of the folded map comes from the initial map or from the list. -/
lemma mapKeys_foldl_subset {α : Type} (f : α → String) (g : α → EnvVariableUI)
    (l : List α) (m : List (String × EnvVariableUI)) (k : String)
    (h : k ∈ mapKeys (l.foldl (fun m x => mapSet m (f x) (g x)) m)) :
    k ∈ mapKeys m ∨ k ∈ l.map f := by
  induction l generalizing m with
  | nil => exact Or.inl h
  | cons x rest ih =>
      rw [List.foldl_cons] at h
      rcases ih (mapSet m (f x) (g x)) h with hm | hl
      · by_cases hmem : f x ∈ mapKeys m
        · rw [mapKeys_mapSet_mem _ _ _ hmem] at hm
          exact Or.inl hm
        · rw [mapKeys_mapSet_of_not_mem _ _ _ hmem] at hm
          rcases (by simpa [mapKeys] using hm) with hm' | he
          · exact Or.inl (by simpa [mapKeys] using hm')
          · exact Or.inr (by simp [he])
      · exact Or.inr (by simpa using Or.inr hl)

lemma mapKeys_append_single (m : List (String × EnvVariableUI)) (k : String)
    (v : EnvVariableUI) : mapKeys (m ++ [(k, v)]) = mapKeys m ++ [k] := by
  simp [mapKeys]

/-- Folding `mapSet` with keys that are pairwise distinct and fresh for the
initial map appends them in order. -/
lemma mapKeys_foldl_fresh {α : Type} (f : α → String) (g : α → EnvVariableUI)
    (l : List α) (m : List (String × EnvVariableUI)) :
    (l.map f).Nodup → (∀ x ∈ l, f x ∉ mapKeys m) →
    mapKeys (l.foldl (fun m x => mapSet m (f x) (g x)) m) =
      mapKeys m ++ l.map f := by
  induction l generalizing m with
  | nil => intro _ _; simp
  | cons x rest ih =>
      intro hnd hfresh
      have hx : f x ∉ mapKeys m := hfresh x (by simp)
      have hnd' : f x ∉ rest.map f ∧ (rest.map f).Nodup := by
        simpa [List.nodup_cons] using hnd
      rw [List.foldl_cons, mapKeys_mapSet_of_not_mem _ _ _ hx,
        ih (m ++ [(f x, g x)]) hnd'.2]
      · rw [mapKeys_append_single]
        simp
      · intro y hy
        rw [mapKeys_append_single]
        intro hmem
        rcases List.mem_append.mp hmem with hm | he
        · exact hfresh y (by simp [hy]) hm
        · have : f y = f x := by simpa using he
          exact hnd'.1 (this ▸ List.mem_map_of_mem f hy)

/-- Folding `mapSet` where every element either overwrites a key already in
the map or inserts a fresh key: the key list is extended exactly by the
fresh keys, in fold order. -/
lemma mapKeys_foldl_mixed {α : Type} (f : α → String) (g : α → EnvVariableUI)
    (p : α → Bool) (l : List α) (m : List (String × EnvVariableUI)) :
    (∀ x ∈ l, p x = false → f x ∈ mapKeys m) →
    (∀ x ∈ l, p x = true → f x ∉ mapKeys m) →
    ((l.filter p).map f).Nodup →
    mapKeys (l.foldl (fun m x => mapSet m (f x) (g x)) m) =
      mapKeys m ++ (l.filter p).map f := by
  induction l generalizing m with
  | nil => intro _ _ _; simp
  | cons x rest ih =>
      intro hold hnew hnd
      rw [List.foldl_cons]
      cases hpx : p x with
      | false =>
          have hx : f x ∈ mapKeys m := hold x (by simp) hpx
          have hkeys : mapKeys (mapSet m (f x) (g x)) = mapKeys m :=
            mapKeys_mapSet_mem _ _ _ hx
          rw [List.filter_cons_of_neg (by simp [hpx])]
          rw [ih (mapSet m (f x) (g x))
            (fun y hy hpy => hkeys ▸ hold y (by simp [hy]) hpy)
            (fun y hy hpy => hkeys ▸ hnew y (by simp [hy]) hpy)
            (by rwa [List.filter_cons_of_neg (by simp [hpx])] at hnd), hkeys]
      | true =>
          have hx : f x ∉ mapKeys m := hnew x (by simp) hpx
          have hnd' : f x ∉ (rest.filter p).map f ∧
              ((rest.filter p).map f).Nodup := by
            rw [List.filter_cons_of_pos (by simp [hpx])] at hnd
            simpa [List.nodup_cons] using hnd
          rw [mapKeys_mapSet_of_not_mem _ _ _ hx]
          rw [ih (m ++ [(f x, g x)])
            (fun y hy hpy => by
              rw [mapKeys_append_single]
              exact List.mem_append.mpr (Or.inl (hold y (by simp [hy]) hpy)))
            (fun y hy hpy => by
              rw [mapKeys_append_single]
              intro hmem
              rcases List.mem_append.mp hmem with hm | he
              · exact hnew y (by simp [hy]) hpy hm
              · have hfy : f y = f x := by simpa using he
                exact hnd'.1
                  (hfy ▸ List.mem_map_of_mem f (List.mem_filter.mpr ⟨hy, hpy⟩)))
            hnd'.2]
          rw [mapKeys_append_single, List.filter_cons_of_pos (by simp [hpx])]
          simp

/-- The map of committed variables the page builds before applying changes. -/
def committedMap (committed : List EnvVariable) :
    List (String × EnvVariableUI) :=
  committed.foldl (fun m env => mapSet m env.id (committedEntry env)) []

lemma envVariablesMap_eq_foldl (committed : List EnvVariable)
    (changes : List UnappliedChange) :
    envVariablesMap committed changes =
      (changes.filter isEnvChange).foldl
        (fun m ch => mapSet m (chKey ch) (changeEntry ch))
        (committedMap committed) := rfl

lemma nodup_mapKeys_mapSet (m : List (String × EnvVariableUI)) (k : String)
    (v : EnvVariableUI) (h : (mapKeys m).Nodup) :
    (mapKeys (mapSet m k v)).Nodup := by
  by_cases hk : k ∈ mapKeys m
  · rwa [mapKeys_mapSet_mem _ _ _ hk]
  · rw [mapKeys_mapSet_of_not_mem _ _ _ hk, mapKeys_append_single]
    simp only [List.nodup_append, List.nodup_cons]
    exact ⟨h, by simp, by simpa [List.disjoint_singleton] using hk⟩

lemma nodup_mapKeys_foldl {α : Type} (f : α → String) (g : α → EnvVariableUI)
    (l : List α) (m : List (String × EnvVariableUI))
    (h : (mapKeys m).Nodup) :
    (mapKeys (l.foldl (fun m x => mapSet m (f x) (g x)) m)).Nodup := by
  induction l generalizing m with
  | nil => exact h
  | cons x rest ih =>
      rw [List.foldl_cons]
      exact ih _ (nodup_mapKeys_mapSet _ _ _ h)

lemma filter_key_eq_nil (m : List (String × EnvVariableUI)) (k : String)
    (h : k ∉ mapKeys m) : m.filter (fun p => p.1 == k) = [] := by
  rw [List.filter_eq_nil_iff]
  intro p hp hpk
  exact h (by
    have : p.1 = k := by simpa using hpk
    simpa [mapKeys, ← this] using List.mem_map_of_mem (fun p => p.1) hp)

lemma countKey_eq_one_of_nodup (m : List (String × EnvVariableUI)) (k : String)
    (hnd : (mapKeys m).Nodup) (hsome : (mapGet m k).isSome = true) :
    countKey m k = 1 := by
  induction m with
  | nil => simp [mapGet] at hsome
  | cons p rest ih =>
      have hnd' : p.1 ∉ mapKeys rest ∧ (mapKeys rest).Nodup := by
        simpa [mapKeys, List.nodup_cons] using hnd
      cases hpk : p.1 == k with
      | true =>
          have hp : p.1 = k := by simpa using hpk
          have hmem : k ∉ mapKeys rest := hp ▸ hnd'.1
          simp [countKey, List.filter_cons, hpk, filter_key_eq_nil rest k hmem]
      | false =>
          have hget : (mapGet rest k).isSome = true := by
            simpa [mapGet, hpk] using hsome
          have := ih hnd'.2 hget
          simpa [countKey, List.filter_cons, hpk] using this

lemma mapGet_envVariablesMap (c : List EnvVariable) (q : List UnappliedChange)
    (i : String) :
    mapGet (envVariablesMap c q) i =
      (lastEnvChange q i).elim (mapGet (committedMap c) i)
        (fun ch => some (changeEntry ch)) := by
  rw [envVariablesMap_eq_foldl]
  exact mapGet_foldl_mapSet chKey changeEntry (q.filter isEnvChange)
    (committedMap c) i

/-! ### Request bodies sent by the client actions -/

/-- The body of a `request-service-changes` call. -/
structure ChangeRequestBody where
  type : ChangeType
  field : String
  item_id : Option String
  new_value : Option KeyValue
  deriving DecidableEq

/-- Body built by `createEnvVariable`: form fields are read with
`formData.get(...) ?? ""`, no `item_id` is sent. -/
def createEnvVariableBody (key value : Option String) : ChangeRequestBody :=
  { type := ChangeType.ADD
    field := "env_variables"
    item_id := none
    new_value := some ⟨key.getD "", value.getD ""⟩ }

/-- Body built by `updateEnvVariable`. -/
def updateEnvVariableBody (item_id key value : Option String) :
    ChangeRequestBody :=
  { type := ChangeType.UPDATE
    field := "env_variables"
    item_id := some (item_id.getD "")
    new_value := some ⟨key.getD "", value.getD ""⟩ }

/-- Body built by `deleteEnvVariable`: no `new_value` is sent. -/
def deleteEnvVariableBody (item_id : Option String) : ChangeRequestBody :=
  { type := ChangeType.DELETE
    field := "env_variables"
    item_id := some (item_id.getD "")
    new_value := none }

/-! ### Success/error control flow of the client actions -/

/-- The error payload of a failed API call. -/
structure ApiError where
  details : List String
  deriving DecidableEq

/-- What a propose client action leaves behind: the value returned to the
form (errors together with the user's input, when the call failed) and
whether the cached service query was invalidated (the refetch). -/
structure MutationOutcome where
  returnedErrors : Option (ApiError × KeyValue)
  invalidatedCache : Bool
  deriving DecidableEq

/-- Control flow of `createEnvVariable`: on `errors` return them with
`userData` and do not touch the cache; only the `data` branch invalidates
the cached service query. -/
def createEnvVariable (userData : KeyValue) (error : Option ApiError)
    (hasData : Bool) : MutationOutcome :=
  match error with
  | some errs => ⟨some (errs, userData), false⟩
  | none => if hasData then ⟨none, true⟩ else ⟨none, false⟩

/-- Control flow of `updateEnvVariable`, identical to `createEnvVariable`. -/
def updateEnvVariable (userData : KeyValue) (error : Option ApiError)
    (hasData : Bool) : MutationOutcome :=
  match error with
  | some errs => ⟨some (errs, userData), false⟩
  | none => if hasData then ⟨none, true⟩ else ⟨none, false⟩

/-- Control flow of `cancelEnvVariable`: the result is whether the cached
service query was invalidated; an error returns before the invalidation. -/
def cancelEnvVariable (error : Option ApiError) : Bool :=
  match error with
  | some _ => false
  | none => true

/-! ### The deploy form -/

/-- What `DeployServiceForm` renders for a service. -/
structure DeployFormView where
  deployFormRendered : Bool
  showsUnappliedWarning : Bool
  warningCount : Nat
  deriving DecidableEq

/-- `DeployServiceForm`: the submit form is rendered unconditionally; the
warning button is rendered when `unapplied_changes.length > 0` and shows
the queue length. -/
def deployServiceForm (unapplied_changes : List UnappliedChange) :
    DeployFormView :=
  { deployFormRendered := true
    showsUnappliedWarning := decide (0 < unapplied_changes.length)
    warningCount := unapplied_changes.length }

/-! ### Image resolution in the service layout -/

/-- The `new_value` of a `source` change as the layout reads it
(`Pick<DockerService, "image" | "credentials">`). -/
structure SourceValue where
  image : Option String
  deriving DecidableEq

/-- One element of `service.unapplied_changes` as read by the layout. -/
structure ServiceChange where
  field : String
  new_value : Option SourceValue
  deriving DecidableEq

/-- JS truthiness of a string: non-empty. -/
def strTruthy (s : String) : Bool :=
  !s.data.isEmpty

/-- The check `serviceImage.includes(":")`. -/
def includesColon (s : String) : Bool :=
  s.data.contains ':'

/-- The image string `ServiceDetailsLayout` displays:
`service.image ?? filter(field === "source")[0]?.new_value?.image`, then
`if (serviceImage && !serviceImage.includes(":")) serviceImage += ":latest"`. -/
def resolveServiceImage (image : Option String)
    (unapplied_changes : List ServiceChange) : Option String :=
  let serviceImage :=
    match image with
    | some s => some s
    | none =>
        match (unapplied_changes.filter
            (fun ch => ch.field == "source")).head? with
        | some ch =>
            match ch.new_value with
            | some v => v.image
            | none => none
        | none => none
  match serviceImage with
  | some s =>
      if strTruthy s && !(includesColon s) then some (s ++ ":latest")
      else some s
  | none => none

/-- The image of the `new_value` of the first unapplied `source` change. -/
def firstSourceImage (unapplied_changes : List ServiceChange) :
    Option String :=
  ((unapplied_changes.filter (fun ch => ch.field == "source")).head?).bind
    (fun ch => ch.new_value.bind (fun v => v.image))

/-- The `:latest` suffixing step applied to a resolved image string. -/
def appendLatest (s : String) : String :=
  if strTruthy s && !(includesColon s) then s ++ ":latest" else s

/-! ### Concrete sample inputs -/

/-- A committed env variable `{id:"e1", key:"A", value:"1"}`. -/
def envE1 : EnvVariable := ⟨"e1", "A", "1"⟩

/-- A pending DELETE of committed item `e1`. -/
def delE1 : UnappliedChange :=
  ⟨"c3", "env_variables", ChangeType.DELETE, some "e1", none, some ⟨"A", "1"⟩⟩

/-- A pending UPDATE of committed item `e1`. -/
def updE1 : UnappliedChange :=
  ⟨"c1", "env_variables", ChangeType.UPDATE, some "e1", some ⟨"A", "2"⟩,
    some ⟨"A", "1"⟩⟩

/-- A pending ADD of a never-committed item with minted id `x1`. -/
def addX1 : UnappliedChange :=
  ⟨"c4", "env_variables", ChangeType.ADD, some "x1", some ⟨"B", "x"⟩, none⟩

/-- A pending DELETE of the staged item `x1`. -/
def delX1 : UnappliedChange :=
  ⟨"c5", "env_variables", ChangeType.DELETE, some "x1", none, some ⟨"B", "x"⟩⟩

/-- A pending ADD keyed by its change id (`item_id` not yet assigned). -/
def addB : UnappliedChange :=
  ⟨"c2", "env_variables", ChangeType.ADD, none, some ⟨"B", "x"⟩, none⟩

/-! ### The claims -/

/-- C5: the merged env-variable view is deterministic: computing it twice
from the same committed list and pending-change queue yields identical
results (`envVariablesMap` is a pure function of its inputs). -/
theorem merge_deterministic (committed : List EnvVariable)
    (changes : List UnappliedChange) :
    envVariablesMap committed changes = envVariablesMap committed changes :=
  rfl

/-- C6: every change request the client builds has the required shape: an
ADD request carries the field and `new_value` but no `item_id`; an UPDATE
request carries `item_id` and `new_value`; a DELETE request carries
`item_id` and no `new_value`. -/
theorem change_request_shapes (key value item_id : Option String) :
    (createEnvVariableBody key value).type = ChangeType.ADD ∧
    (createEnvVariableBody key value).field = "env_variables" ∧
    (createEnvVariableBody key value).item_id = none ∧
    (createEnvVariableBody key value).new_value =
      some ⟨key.getD "", value.getD ""⟩ ∧
    (updateEnvVariableBody item_id key value).type = ChangeType.UPDATE ∧
    (updateEnvVariableBody item_id key value).item_id =
      some (item_id.getD "") ∧
    (updateEnvVariableBody item_id key value).new_value =
      some ⟨key.getD "", value.getD ""⟩ ∧
    (deleteEnvVariableBody item_id).type = ChangeType.DELETE ∧
    (deleteEnvVariableBody item_id).item_id = some (item_id.getD "") ∧
    (deleteEnvVariableBody item_id).new_value = none :=
  ⟨rfl, rfl, rfl, rfl, rfl, rfl, rfl, rfl, rfl, rfl⟩

/-- C7: an error from a propose or cancel call leaves client-side state
unchanged: `createEnvVariable`/`updateEnvVariable` return the errors
together with the user's input and do not invalidate the cached service,
`cancelEnvVariable` does not invalidate either; the cache is invalidated
(the displayed configuration refetched) exactly on success. -/
theorem propose_cancel_error_leaves_state (userData : KeyValue)
    (errs : ApiError) (error : Option ApiError) (hasData : Bool) :
    createEnvVariable userData (some errs) hasData =
      ⟨some (errs, userData), false⟩ ∧
    updateEnvVariable userData (some errs) hasData =
      ⟨some (errs, userData), false⟩ ∧
    cancelEnvVariable (some errs) = false ∧
    (createEnvVariable userData error hasData).invalidatedCache =
      (error.isNone && hasData) ∧
    (updateEnvVariable userData error hasData).invalidatedCache =
      (error.isNone && hasData) ∧
    cancelEnvVariable error = error.isNone := by
  refine ⟨rfl, rfl, rfl, ?_, ?_, ?_⟩ <;>
    cases error <;> cases hasData <;>
      simp [createEnvVariable, updateEnvVariable, cancelEnvVariable]

/-- C8: the deploy form is rendered (and submittable) for every service,
whatever the queue; the unapplied-changes warning is shown exactly when the
queue is non-empty, and its count is the queue length. -/
theorem deploy_always_requestable (unapplied_changes : List UnappliedChange) :
    (deployServiceForm unapplied_changes).deployFormRendered = true ∧
    (deployServiceForm unapplied_changes).showsUnappliedWarning =
      !unapplied_changes.isEmpty ∧
    (deployServiceForm unapplied_changes).warningCount =
      unapplied_changes.length := by
  refine ⟨rfl, ?_, rfl⟩
  cases unapplied_changes <;> simp [deployServiceForm]

/-- C1 counterexample: with committed `[{id:"e1", key:"A", value:"1"}]` and
a single pending DELETE of `e1`, the rendered map still holds an entry for
`e1` — the item whose last (only) pending change has type DELETE is NOT
omitted from the merged view. -/
theorem delete_entry_not_omitted_cex :
    lastEnvChange [delE1] "e1" = some delE1 ∧
    delE1.type = ChangeType.DELETE ∧
    mapGet (envVariablesMap [envE1] [delE1]) "e1" ≠ none ∧
    envVariablesMap [envE1] [delE1] = [("e1", changeEntry delE1)] := by
  refine ⟨by decide, rfl, ?_, by decide⟩
  decide

/-- C1 amended: an item whose last pending change has type DELETE is
retained in the rendered env_variables map — its entry is the DELETE
change's entry, marked with `change_type = DELETE` — rather than omitted. -/
theorem delete_change_rendered_not_omitted (committed : List EnvVariable)
    (changes : List UnappliedChange) (i : String) (ch : UnappliedChange)
    (hlast : lastEnvChange changes i = some ch)
    (hdel : ch.type = ChangeType.DELETE) :
    mapGet (envVariablesMap committed changes) i = some (changeEntry ch) ∧
    (changeEntry ch).change_type = some ChangeType.DELETE ∧
    mapGet (envVariablesMap committed changes) i ≠ none := by
  have hget : mapGet (envVariablesMap committed changes) i =
      some (changeEntry ch) := by
    rw [mapGet_envVariablesMap, hlast]
    rfl
  refine ⟨hget, ?_, by rw [hget]; simp⟩
  simp [changeEntry, hdel]

/-- C1 witness: the amended theorem at the concrete committed list `[e1]`
and queue `[DELETE e1]`. -/
theorem delete_change_rendered_not_omitted_witness :
    mapGet (envVariablesMap [envE1] [delE1]) "e1" = some (changeEntry delE1) ∧
    (changeEntry delE1).change_type = some ChangeType.DELETE ∧
    mapGet (envVariablesMap [envE1] [delE1]) "e1" ≠ none :=
  delete_change_rendered_not_omitted [envE1] [delE1] "e1" delE1
    (by decide) rfl

/-- C10: the entry rendered for a pending change takes its displayed
key/value from the change's `new_value` when it is present and from its
`old_value` otherwise; a DELETE change (no `new_value`) is displayed with
the snapshot of the value being removed. -/
theorem rendered_payload_from_new_or_old (committed : List EnvVariable)
    (changes : List UnappliedChange) (i : String) (ch : UnappliedChange)
    (hlast : lastEnvChange changes i = some ch) :
    mapGet (envVariablesMap committed changes) i = some (changeEntry ch) ∧
    (∀ kv, ch.new_value = some kv →
      (changeEntry ch).name = kv.key ∧ (changeEntry ch).value = kv.value) ∧
    (∀ kv, ch.new_value = none → ch.old_value = some kv →
      (changeEntry ch).name = kv.key ∧ (changeEntry ch).value = kv.value) := by
  refine ⟨?_, ?_, ?_⟩
  · rw [mapGet_envVariablesMap, hlast]
    rfl
  · intro kv h
    simp [changeEntry, chPayload, h]
  · intro kv h1 h2
    simp [changeEntry, chPayload, h1, h2]

/-- C10 witness: the DELETE change of `e1` carries no `new_value` and is
rendered with the `old_value` snapshot `A = 1`. -/
theorem rendered_payload_from_new_or_old_witness :
    mapGet (envVariablesMap [envE1] [delE1]) "e1" = some (changeEntry delE1) ∧
    (changeEntry delE1).name = "A" ∧ (changeEntry delE1).value = "1" :=
  ⟨(rendered_payload_from_new_or_old [envE1] [delE1] "e1" delE1 (by decide)).1,
    (rendered_payload_from_new_or_old [envE1] [delE1] "e1" delE1
      (by decide)).2.2 ⟨"A", "1"⟩ rfl rfl⟩

/-- C3: when the queue's changes targeting key `i` of the env collection
are `ch1` then `ch2`, the merged view holds exactly one entry for `i`, and
that entry — payload and `change_type` alike — comes from `ch2`, the change
later in creation order. -/
theorem later_change_supersedes (committed : List EnvVariable)
    (changes : List UnappliedChange) (i : String) (ch1 ch2 : UnappliedChange)
    (hpair : (changes.filter isEnvChange).filter
      (fun ch => chKey ch == i) = [ch1, ch2]) :
    countKey (envVariablesMap committed changes) i = 1 ∧
    mapGet (envVariablesMap committed changes) i = some (changeEntry ch2) ∧
    (changeEntry ch2).change_type = some ch2.type ∧
    (changeEntry ch2).name = ((chPayload ch2).getD ⟨"", ""⟩).key ∧
    (changeEntry ch2).value = ((chPayload ch2).getD ⟨"", ""⟩).value := by
  have hlast : lastEnvChange changes i = some ch2 := by
    rw [lastEnvChange, hpair]
    rfl
  have hget : mapGet (envVariablesMap committed changes) i =
      some (changeEntry ch2) := by
    rw [mapGet_envVariablesMap, hlast]
    rfl
  have hnd : (mapKeys (envVariablesMap committed changes)).Nodup := by
    rw [envVariablesMap_eq_foldl]
    exact nodup_mapKeys_foldl _ _ _ _
      (nodup_mapKeys_foldl _ _ _ [] (by simp [mapKeys]))
  exact ⟨countKey_eq_one_of_nodup _ _ hnd (by rw [hget]; rfl),
    hget, rfl, rfl, rfl⟩

/-- C3 witness: committed `e1` and a queue staging UPDATE then DELETE on
`e1`; exactly one entry for `e1` is rendered and it is the DELETE's. -/
theorem later_change_supersedes_witness :
    countKey (envVariablesMap [envE1] [updE1, delE1]) "e1" = 1 ∧
    mapGet (envVariablesMap [envE1] [updE1, delE1]) "e1" =
      some (changeEntry delE1) ∧
    (changeEntry delE1).change_type = some delE1.type ∧
    (changeEntry delE1).name = ((chPayload delE1).getD ⟨"", ""⟩).key ∧
    (changeEntry delE1).value = ((chPayload delE1).getD ⟨"", ""⟩).value :=
  later_change_supersedes [envE1] [updE1, delE1] "e1" updE1 delE1 (by decide)

/-- C2 counterexample: staging ADD(x1) then DELETE(x1) on a never-committed
item does not collapse — the merged view keeps one entry for `x1`, marked as
a DELETE change, so it differs from the view with neither change staged. -/
theorem add_then_delete_not_collapsed_cex :
    envVariablesMap [] [addX1, delX1] ≠ envVariablesMap [] [] ∧
    envVariablesMap [] [] = [] ∧
    envVariablesMap [] [addX1, delX1] = [("x1", changeEntry delX1)] ∧
    (changeEntry delX1).change_type = some ChangeType.DELETE := by
  refine ⟨by decide, rfl, by decide, rfl⟩

/-- C2 amended: staging ADD then DELETE of a never-committed item does not
restore the neither-change view; it yields that view extended with a single
entry for the item, carrying the DELETE change (marked `change_type =
DELETE`). -/
theorem add_then_delete_leaves_marked_entry (committed : List EnvVariable)
    (changes : List UnappliedChange) (i : String) (a d : UnappliedChange)
    (ha : isEnvChange a = true) (hd : isEnvChange d = true)
    (hka : chKey a = i) (hkd : chKey d = i)
    (hci : i ∉ committed.map EnvVariable.id)
    (hqi : ∀ ch ∈ changes, chKey ch ≠ i) :
    envVariablesMap committed (changes ++ [a, d]) =
      envVariablesMap committed changes ++ [(i, changeEntry d)] := by
  have hnotmem : i ∉ mapKeys (envVariablesMap committed changes) := by
    intro hmem
    rw [envVariablesMap_eq_foldl] at hmem
    rcases mapKeys_foldl_subset chKey changeEntry _ _ i hmem with hm0 | hch
    · simp only [committedMap] at hm0
      rcases mapKeys_foldl_subset (fun env => env.id) committedEntry
        committed [] i hm0 with h0 | hc
      · simp [mapKeys] at h0
      · exact hci hc
    · rcases List.mem_map.mp hch with ⟨ch, hchmem, hchkey⟩
      exact hqi ch (List.mem_of_mem_filter hchmem) hchkey
  have hfilter : (changes ++ [a, d]).filter isEnvChange =
      changes.filter isEnvChange ++ [a, d] := by
    rw [List.filter_append]
    simp [List.filter_cons, ha, hd]
  rw [envVariablesMap_eq_foldl, hfilter, List.foldl_append]
  rw [← envVariablesMap_eq_foldl]
  show mapSet (mapSet (envVariablesMap committed changes)
    (chKey a) (changeEntry a)) (chKey d) (changeEntry d) = _
  rw [hka, hkd, mapKeys_mapSet_of_not_mem _ _ _ hnotmem,
    mapSet_append_self _ _ _ _ hnotmem]

/-- C2 witness: the amended theorem at the empty committed list and empty
prior queue, with the concrete ADD/DELETE pair on minted id `x1`. -/
theorem add_then_delete_leaves_marked_entry_witness :
    envVariablesMap [] ([] ++ [addX1, delX1]) =
      envVariablesMap [] [] ++ [("x1", changeEntry delX1)] :=
  add_then_delete_leaves_marked_entry [] [] "x1" addX1 delX1
    rfl rfl rfl rfl (by simp) (by simp)

/-- C4: for a queue of env changes in which every non-ADD change targets a
committed item and the ADD changes mint fresh, pairwise-distinct ids, the
merged collection lists all committed items first, in committed order
(UPDATEs and other changes to committed items keep their position), followed
by the newly added items in creation order of their ADD changes. -/
theorem merged_collection_ordering (committed : List EnvVariable)
    (changes : List UnappliedChange)
    (hids : (committed.map EnvVariable.id).Nodup)
    (henv : ∀ ch ∈ changes, isEnvChange ch = true)
    (hold : ∀ ch ∈ changes, (ch.type == ChangeType.ADD) = false →
      chKey ch ∈ committed.map EnvVariable.id)
    (hnew : ∀ ch ∈ changes, (ch.type == ChangeType.ADD) = true →
      chKey ch ∉ committed.map EnvVariable.id)
    (hnd : ((changes.filter
      (fun ch => ch.type == ChangeType.ADD)).map chKey).Nodup) :
    mapKeys (envVariablesMap committed changes) =
      committed.map EnvVariable.id ++
        (changes.filter (fun ch => ch.type == ChangeType.ADD)).map chKey := by
  have hm0 : mapKeys (committedMap committed) =
      committed.map EnvVariable.id := by
    simp only [committedMap]
    rw [mapKeys_foldl_fresh (fun env => env.id) committedEntry committed []
      hids (fun x _ => by simp [mapKeys])]
    simp [mapKeys]
  have hfe : changes.filter isEnvChange = changes :=
    List.filter_eq_self.mpr henv
  rw [envVariablesMap_eq_foldl, hfe,
    mapKeys_foldl_mixed chKey changeEntry
      (fun ch => ch.type == ChangeType.ADD) changes (committedMap committed)
      (fun x hx hpx => hm0 ▸ hold x hx hpx)
      (fun x hx hpx => hm0 ▸ hnew x hx hpx) hnd, hm0]

/-- C4 witness: committed `[e1]` with a queue `[UPDATE e1, ADD (keyed c2)]`;
the merged keys are the committed item first, then the added one. -/
theorem merged_collection_ordering_witness :
    mapKeys (envVariablesMap [envE1] [updE1, addB]) =
      [envE1].map EnvVariable.id ++
        ([updE1, addB].filter
          (fun ch => ch.type == ChangeType.ADD)).map chKey :=
  merged_collection_ordering [envE1] [updE1, addB]
    (by decide) (by decide) (by decide) (by decide) (by decide)

/-- C9 counterexample: with `service.image = ""` the resolved string
contains no `":"`, yet no `":latest"` suffix is appended — the source's
truthiness guard (`serviceImage && ...`) skips the empty string. -/
theorem empty_image_no_latest_cex :
    resolveServiceImage (some "") [] = some "" ∧
    includesColon "" = false ∧
    resolveServiceImage (some "") [] ≠ some ("" ++ ":latest") := by
  refine ⟨rfl, rfl, by decide⟩

/-- C9 amended: the displayed image is `service.image` when present,
otherwise the image of the `new_value` of the first unapplied `source`
change; `":latest"` is appended exactly when the resolved string is
non-empty (JS truthiness) and contains no `":"`. -/
theorem serviceImage_resolution (image : Option String)
    (unapplied_changes : List ServiceChange) (s : String) :
    (image = some s → resolveServiceImage image unapplied_changes =
      some (appendLatest s)) ∧
    (image = none → resolveServiceImage image unapplied_changes =
      (firstSourceImage unapplied_changes).map appendLatest) ∧
    (strTruthy s = true → includesColon s = false →
      appendLatest s = s ++ ":latest") ∧
    (strTruthy s = false → appendLatest s = s) ∧
    (includesColon s = true → appendLatest s = s) := by
  refine ⟨?_, ?_, ?_, ?_, ?_⟩
  · intro h
    subst h
    cases hc : strTruthy s && !(includesColon s) <;>
      simp [resolveServiceImage, appendLatest, hc]
  · intro h
    subst h
    cases hh : (unapplied_changes.filter
        (fun ch => ch.field == "source")).head? with
    | none => simp [resolveServiceImage, firstSourceImage, hh]
    | some ch =>
        cases hnv : ch.new_value with
        | none => simp [resolveServiceImage, firstSourceImage, hh, hnv]
        | some v =>
            cases hi : v.image with
            | none =>
                simp [resolveServiceImage, firstSourceImage, hh, hnv, hi]
            | some img =>
                cases hc : strTruthy img && !(includesColon img) <;>
                  simp [resolveServiceImage, firstSourceImage, appendLatest,
                    hh, hnv, hi, hc]
  · intro h1 h2
    simp [appendLatest, h1, h2]
  · intro h1
    simp [appendLatest, h1]
  · intro h1
    simp [appendLatest, h1]
